import Mathlib

/-!
Verification of the secret-santa registry server (`src/index.ts`).

The embedding models the in-memory registry (the `participants` Map plus the
three module-level flags), the persisted snapshot format, the sanitizing
loader, and the three mutating HTTP handlers (register, shuffle, reopen).

Modelling conventions:
* The JS `Map<string, Participant>` is modelled as a `List Participant` in
  insertion order; the Map's key-uniqueness is carried as a `Nodup`
  hypothesis on the token list where a theorem needs it.
* `undefined` and `null` optional fields both become `Option.none`.
* Time (`new Date().toISOString()`), freshly generated tokens
  (`crypto.randomUUID()`), the extracted client IP, and the stream of
  `Math.random` draws are oracle inputs passed explicitly to the operations.
* The durable write (`persistState`, lines 219-236: write to a unique temp
  file, then atomic rename over the canonical file; on failure the temp file
  is removed and the canonical file keeps its last committed content) is
  modelled by a boolean `persistOk` oracle: on success the canonical file
  holds the freshly captured snapshot, on failure it is unchanged.
* The admin-password gate on shuffle/reopen/list returns 401 before touching
  any state; the handlers are modelled from the point where authorization
  has succeeded.
* JSON numbers are modelled as integers; the claims under verification only
  distinguish strings, booleans, null, arrays, objects and absence.
-/

namespace SantaSpec

/-- In-memory participant record (`type Participant`, index.ts lines 5-11).
`assignmentToken?: string` and `ipAddress?: string` become `Option String`. -/
structure Participant where
  token : String
  name : String
  assignmentToken : Option String
  registeredAt : String
  ipAddress : Option String
deriving Repr, DecidableEq

/-- Persisted participant record (`type PersistedParticipant`, lines 13-19):
the same fields with `null` instead of `undefined` for the optional ones. -/
structure PersistedParticipant where
  token : String
  name : String
  assignmentToken : Option String
  registeredAt : String
  ipAddress : Option String
deriving Repr, DecidableEq

/-- On-disk snapshot shape (`type PersistedState`, lines 21-26). -/
structure PersistedState where
  participants : List PersistedParticipant
  assignmentsReady : Bool
  lastShuffledAt : Option String
  registrationOpen : Bool
deriving Repr, DecidableEq

/-- The module-level mutable state of index.ts (lines 35-38): the
`participants` Map (as a list in insertion order) and the three flags. -/
structure Registry where
  participants : List Participant
  assignmentsReady : Bool
  lastShuffledAt : Option String
  registrationOpen : Bool
deriving Repr, DecidableEq

/-- Registry plus the canonical on-disk file (`participants.json`); `none`
means the file does not exist yet. -/
structure Sys where
  reg : Registry
  disk : Option PersistedState
deriving Repr, DecidableEq

/-- Tokens of the registry in insertion order (the Map's key set). -/
def tokensOf (r : Registry) : List String :=
  r.participants.map Participant.token

/-- JS `String.prototype.trim`: strip leading and trailing whitespace
(restricted to ASCII whitespace, which covers the inputs in scope). -/
def jsTrim (s : String) : String :=
  ⟨((s.data.dropWhile Char.isWhitespace).reverse.dropWhile Char.isWhitespace).reverse⟩

/-- JS `Map.set` on the insertion-ordered value list: an existing key keeps
its position and gets the new value, a fresh key is appended. -/
def mapSet (ps : List Participant) (p : Participant) : List Participant :=
  if ps.any (fun q => q.token == p.token) then
    ps.map (fun q => if q.token == p.token then p else q)
  else
    ps ++ [p]

/-- Conversion used by `captureState` (lines 129-135): each Map value is
copied field by field, `assignmentToken ?? null`, `ipAddress ?? null`. -/
def persistedOfParticipant (p : Participant) : PersistedParticipant :=
  { token := p.token, name := p.name, assignmentToken := p.assignmentToken
    registeredAt := p.registeredAt, ipAddress := p.ipAddress }

/-- Conversion used by `restoreState` (lines 142-148): `entry.assignmentToken
?? undefined`, `entry.ipAddress ?? undefined`. -/
def participantOfPersisted (e : PersistedParticipant) : Participant :=
  { token := e.token, name := e.name, assignmentToken := e.assignmentToken
    registeredAt := e.registeredAt, ipAddress := e.ipAddress }

/-- `captureState` (lines 124-137): snapshot of flags and participants. -/
def captureState (r : Registry) : PersistedState :=
  { assignmentsReady := r.assignmentsReady
    lastShuffledAt := r.lastShuffledAt
    registrationOpen := r.registrationOpen
    participants := r.participants.map persistedOfParticipant }

/-- `restoreState` (lines 139-153): clears the Map, re-inserts every entry
with `Map.set`, and copies the flags (`Boolean(_)` on a boolean and
`?? null` on a `string | null` are identities; the `typeof` check on
`registrationOpen` always sees a boolean coming from a `PersistedState`). -/
def restoreState (s : PersistedState) : Registry :=
  { participants :=
      s.participants.foldl (fun acc e => mapSet acc (participantOfPersisted e)) []
    assignmentsReady := s.assignmentsReady
    lastShuffledAt := s.lastShuffledAt
    registrationOpen := s.registrationOpen }

/-- The durable write of `persistState` (lines 219-236) seen through the
`persistOk` oracle: success replaces the canonical file with the snapshot of
`r` (temp-file write + atomic rename), failure leaves the canonical file at
its last committed content (the temp file is discarded). -/
def persistStep (persistOk : Bool) (r : Registry) (disk : Option PersistedState) :
    Option PersistedState :=
  if persistOk then some (captureState r) else disk

/-! ### JSON domain for the sanitizing loader -/

/-- JSON values as produced by `JSON.parse` (numbers restricted to
integers, which is enough for the claims in scope). -/
inductive Json where
  | null : Json
  | bool : Bool → Json
  | num : Int → Json
  | str : String → Json
  | arr : List Json → Json
  | obj : List (String × Json) → Json
deriving Repr

/-- Property access `o.key` / `"key" in o` on a parsed JSON object
(`JSON.parse` keeps at most one binding per key). -/
def lookupField (fields : List (String × Json)) (key : String) : Option Json :=
  (fields.find? (fun kv => kv.1 == key)).map Prod.snd

mutual
/-- JS `String(v)` conversion on parsed JSON values. -/
def jsToString : Json → String
  | .null => "null"
  | .bool true => "true"
  | .bool false => "false"
  | .num n => toString n
  | .str s => s
  | .arr xs => jsArrToString xs
  | .obj _ => "[object Object]"

/-- JS array-to-string: elements joined with `,`, with `null` rendered
as the empty string. -/
def jsArrToString : List Json → String
  | [] => ""
  | [x] => (match x with | .null => "" | y => jsToString y)
  | x :: xs => (match x with | .null => "" | y => jsToString y) ++ "," ++ jsArrToString xs
end

/-- JS truthiness `Boolean(v)` on a parsed JSON value. -/
def jsTruthy : Json → Bool
  | .null => false
  | .bool b => b
  | .num n => n != 0
  | .str s => s != ""
  | .arr _ => true
  | .obj _ => true

/-- `Boolean(o.key)` where an absent property is `undefined` (falsy). -/
def jsTruthyOpt : Option Json → Bool
  | some v => jsTruthy v
  | none => false

/-- The `"key" in record ? String(record.key) : ""` pattern of lines
171-172: the stringified property, or `""` when it is absent. -/
def fieldString (fields : List (String × Json)) (key : String) : String :=
  match lookupField fields key with
  | some v => jsToString v
  | none => ""

/-- Per-record sanitization inside `loadPersistedState` (lines 166-201):
non-objects are dropped; `token` and `name` go through JS `String(_)`
(absent property gives `""`) and an empty result drops the record;
`registeredAt` keeps a non-empty string, else defaults to the current time;
`assignmentToken` keeps a non-empty string, else `null`; `ipAddress` keeps a
string with non-blank trim (trimmed, capped at 128 chars), else `null`. -/
def sanitizeRecord (now : String) : Json → Option PersistedParticipant
  | .obj fields =>
    let token := fieldString fields "token"
    let name := fieldString fields "name"
    if token = "" || name = "" then none
    else
      let registeredAt := match lookupField fields "registeredAt" with
        | some (.str s) => if s = "" then now else s
        | _ => now
      let assignmentToken := match lookupField fields "assignmentToken" with
        | some (.str s) => if s = "" then none else some s
        | _ => none
      let ipAddress := match lookupField fields "ipAddress" with
        | some (.str s) => if jsTrim s = "" then none else some ((jsTrim s).take 128)
        | _ => none
      some { token := token, name := name, registeredAt := registeredAt
             assignmentToken := assignmentToken, ipAddress := ipAddress }
  | _ => none

/-- `loadPersistedState` (lines 155-217) on an already-parsed file: fatal
unless the top level is an object whose `participants` property is an array;
otherwise each record is sanitized independently, missing `assignmentsReady`
defaults to false (`Boolean(undefined)`), `lastShuffledAt` keeps a non-empty
string else `null`, `registrationOpen` keeps a boolean else `true`. -/
def loadSanitize (now : String) (parsed : Json) : Except String PersistedState :=
  match parsed with
  | .obj fields =>
    match lookupField fields "participants" with
    | some (.arr rawParticipants) =>
      .ok { participants := rawParticipants.filterMap (sanitizeRecord now)
            assignmentsReady := jsTruthyOpt (lookupField fields "assignmentsReady")
            lastShuffledAt := match lookupField fields "lastShuffledAt" with
              | some (.str s) => if s = "" then none else some s
              | _ => none
            registrationOpen := match lookupField fields "registrationOpen" with
              | some (.bool b) => b
              | _ => true }
    | _ => .error "Invalid participants store format."
  | _ => .error "Invalid participants store format."

/-- Full load path: sanitize, then `restoreState(sanitized)` (line 209). -/
def loadPersistedJson (now : String) (parsed : Json) : Except String Registry :=
  (loadSanitize now parsed).map restoreState

/-- JSON encoding of one persisted participant, as written by
`JSON.stringify` in `persistState` (line 221) and read back by
`JSON.parse`. -/
def participantToJson (e : PersistedParticipant) : Json :=
  .obj [("token", .str e.token), ("name", .str e.name),
        ("assignmentToken", match e.assignmentToken with
          | some t => .str t
          | none => .null),
        ("registeredAt", .str e.registeredAt),
        ("ipAddress", match e.ipAddress with
          | some u => .str u
          | none => .null)]

/-- JSON encoding of a snapshot: the value `JSON.parse` recovers from the
payload `JSON.stringify(captureState())` written to disk. -/
def stateToJson (s : PersistedState) : Json :=
  .obj [("assignmentsReady", .bool s.assignmentsReady),
        ("lastShuffledAt", match s.lastShuffledAt with
          | some t => .str t
          | none => .null),
        ("registrationOpen", .bool s.registrationOpen),
        ("participants", .arr (s.participants.map participantToJson))]

/-! ### Register handler -/

/-- Outcome of `POST /api/register` (lines 326-377). `closed` is the 403
`StateError`, `invalidName` the 400 `ValidationError` responses, and
`persistFailed` the 500 `PersistenceError` after rollback. -/
inductive RegisterResult where
  | closed : RegisterResult
  | invalidName : String → RegisterResult
  | persistFailed : RegisterResult
  | registered : String → RegisterResult
deriving Repr, DecidableEq

/-- `POST /api/register` (lines 326-377), after body parsing: reject when
registration is closed; trim the name and reject empty or over-64-character
names; otherwise capture the previous state, insert the new participant with
a fresh token (`createUniqueToken`, modelled by the `freshToken` oracle),
set `assignmentsReady = false`, `lastShuffledAt = null`, clear every
participant's `assignmentToken`, and persist — rolling back to the captured
snapshot when the durable write fails. -/
def registerHandler (persistOk : Bool) (freshToken now : String)
    (ip : Option String) (rawName : String) (st : Sys) : RegisterResult × Sys :=
  if !st.reg.registrationOpen then (.closed, st)
  else
    let name := jsTrim rawName
    if name = "" then (.invalidName "Name is required", st)
    else if name.length > 64 then
      (.invalidName "Name must be 64 characters or fewer", st)
    else
      let previousState := captureState st.reg
      let inserted := mapSet st.reg.participants
        { token := freshToken, name := name, assignmentToken := none
          registeredAt := now, ipAddress := ip }
      let r1 : Registry :=
        { participants := inserted.map (fun p => { p with assignmentToken := none })
          assignmentsReady := false
          lastShuffledAt := none
          registrationOpen := st.reg.registrationOpen }
      if persistOk then
        (.registered freshToken, { reg := r1, disk := persistStep true r1 st.disk })
      else
        (.persistFailed, { reg := restoreState previousState, disk := st.disk })

/-! ### Shuffle engine -/

/-- One iteration body of the Fisher-Yates loop (lines 295-297):
`temp = a[i]; a[i] = a[j]; a[j] = temp`. The option guard is the total
embedding of the `!` non-null assertions; in the loop both indices are
always in range. -/
def listSwap (l : List String) (i j : Nat) : List String :=
  match l[i]?, l[j]? with
  | some a, some b => (l.set i b).set j a
  | _, _ => l

/-- The loop `for (let i = n-1; i > 0; i--)` of lines 293-298, with
`rand i` the value of `Math.floor(Math.random() * (i + 1))` at index `i`
(every theorem below holds for arbitrary draws, which covers the reachable
draws `rand i ≤ i`). -/
def fyLoop (rand : Nat → Nat) : Nat → List String → List String
  | 0, l => l
  | i + 1, l => fyLoop rand i (listSwap l (i + 1) (rand (i + 1)))

/-- `const shuffled = [...tokens]` followed by the Fisher-Yates loop. -/
def fisherYates (rand : Nat → Nat) (l : List String) : List String :=
  fyLoop rand (l.length - 1) l

/-- Body of the `shuffled.forEach` callback (lines 300-306), acting on one
Map value: the participant keyed by the giver token `e.2` gets
`assignmentToken = shuffled[(index + 1) % shuffled.length]`. -/
def assignStep (s : List String) (e : Nat × String) (p : Participant) : Participant :=
  if p.token = e.2 then { p with assignmentToken := s[(e.1 + 1) % s.length]? } else p

/-- The `shuffled.forEach((giverToken, index) => ...)` loop of lines
300-306: each enumerated giver token updates the matching Map entry. -/
def applyAssignments (s : List String) (ps : List Participant) : List Participant :=
  s.enum.foldl (fun acc e => acc.map (assignStep s e)) ps

/-- `shuffleAssignments` (lines 286-310): throws with fewer than two
participants, otherwise Fisher-Yates-shuffles the token list, assigns each
giver the next token in the shuffled cycle, and sets `assignmentsReady` and
`lastShuffledAt`. -/
def shuffleAssignments (rand : Nat → Nat) (now : String) (r : Registry) :
    Except String Registry :=
  let tokens := tokensOf r
  if tokens.length < 2 then
    .error "At least two participants are required to shuffle."
  else
    .ok { r with participants := applyAssignments (fisherYates rand tokens) r.participants
                 assignmentsReady := true
                 lastShuffledAt := some now }

/-- Outcome of `POST /api/shuffle` (lines 442-488). -/
inductive ShuffleResult where
  | tooFew : String → ShuffleResult
  | persistFailed : ShuffleResult
  | shuffled : ShuffleResult
deriving Repr, DecidableEq

/-- `POST /api/shuffle` (lines 442-488), after authorization: capture the
previous state, run `shuffleAssignments` (a `StateError` returns 400 with
nothing mutated), set `registrationOpen = false`, persist, and roll back to
the captured snapshot when the durable write fails. -/
def shuffleHandler (persistOk : Bool) (rand : Nat → Nat) (now : String)
    (st : Sys) : ShuffleResult × Sys :=
  let previousState := captureState st.reg
  match shuffleAssignments rand now st.reg with
  | .error msg => (.tooFew msg, st)
  | .ok r1 =>
    let r2 : Registry := { r1 with registrationOpen := false }
    if persistOk then (.shuffled, { reg := r2, disk := persistStep true r2 st.disk })
    else (.persistFailed, { reg := restoreState previousState, disk := st.disk })

/-! ### Reopen handler -/

/-- Outcome of `POST /api/registration/reopen` (lines 490-530). -/
inductive ReopenResult where
  | persistFailed : ReopenResult
  | reopened : ReopenResult
deriving Repr, DecidableEq

/-- `POST /api/registration/reopen` (lines 490-530), after authorization:
capture the previous state, set `assignmentsReady = false`,
`lastShuffledAt = null`, `registrationOpen = true`, clear every
participant's `assignmentToken`, persist, and roll back on write failure. -/
def reopenHandler (persistOk : Bool) (st : Sys) : ReopenResult × Sys :=
  let previousState := captureState st.reg
  let r1 : Registry :=
    { participants := st.reg.participants.map (fun p => { p with assignmentToken := none })
      assignmentsReady := false
      lastShuffledAt := none
      registrationOpen := true }
  if persistOk then (.reopened, { reg := r1, disk := persistStep true r1 st.disk })
  else (.persistFailed, { reg := restoreState previousState, disk := st.disk })

/-! ### Observation helpers -/

/-- `participants.get(t)?.assignmentToken`: the token the participant keyed
by `t` gives a gift to (the link followed by `GET /api/participant`). -/
def nextOf (r : Registry) (t : String) : Option String :=
  match r.participants.find? (fun p => p.token == t) with
  | some p => p.assignmentToken
  | none => none

/-- `k`-fold following of `assignmentToken` links starting at token `t`. -/
def iterNext (r : Registry) : Nat → String → Option String
  | 0, t => some t
  | k + 1, t =>
    match nextOf r t with
    | some t' => iterNext r k t'
    | none => none

/-- The participant data the persistence round-trip claim compares: token,
name, assignmentToken and registeredAt of each participant (in order), plus
the three event flags. -/
def observable (r : Registry) :
    List (String × String × Option String × String) × Bool × Option String × Bool :=
  (r.participants.map (fun p => (p.token, p.name, p.assignmentToken, p.registeredAt)),
   r.assignmentsReady, r.lastShuffledAt, r.registrationOpen)

/-- Flag invariant: `registrationOpen` and `assignmentsReady` never both
true. -/
def flagsOk (r : Registry) : Bool :=
  !(r.registrationOpen && r.assignmentsReady)

/-- The same flag condition on a persisted snapshot. -/
def snapshotFlagsOk (s : PersistedState) : Bool :=
  !(s.registrationOpen && s.assignmentsReady)

/-- Invariant of the whole system: flags in memory and in every persisted
file state. -/
def sysFlagsOk (st : Sys) : Bool :=
  flagsOk st.reg && (match st.disk with
    | some s => snapshotFlagsOk s
    | none => true)

/-! ### Snapshot / restore lemmas -/

theorem participantOfPersisted_persistedOf (p : Participant) :
    participantOfPersisted (persistedOfParticipant p) = p := rfl

theorem mapSet_fresh (ps : List Participant) (p : Participant)
    (h : ∀ q ∈ ps, q.token ≠ p.token) : mapSet ps p = ps ++ [p] := by
  have hany : ps.any (fun q => q.token == p.token) = false := by
    rw [List.any_eq_false]
    intro q hq
    simpa using h q hq
  simp [mapSet, hany]

theorem foldl_mapSet_fresh (es : List Participant) :
    ∀ acc : List Participant,
      (acc.map Participant.token ++ es.map Participant.token).Nodup →
      es.foldl (fun a e => mapSet a e) acc = acc ++ es := by
  induction es with
  | nil => intro acc _; simp
  | cons e es ih =>
    intro acc hnd
    have hmem : e.token ∉ acc.map Participant.token := by
      have := (List.nodup_append.mp hnd).2.2
      exact fun hx => this hx (by simp)
    have hfresh : ∀ q ∈ acc, q.token ≠ e.token := by
      intro q hq hqe
      exact hmem (hqe ▸ List.mem_map_of_mem Participant.token hq)
    have hstep : mapSet acc e = acc ++ [e] := mapSet_fresh acc e hfresh
    have hnd' : ((acc ++ [e]).map Participant.token ++ es.map Participant.token).Nodup := by
      simpa using hnd
    calc (e :: es).foldl (fun a e => mapSet a e) acc
        = es.foldl (fun a e => mapSet a e) (acc ++ [e]) := by
          simp [List.foldl_cons, hstep]
      _ = (acc ++ [e]) ++ es := ih (acc ++ [e]) hnd'
      _ = acc ++ e :: es := by simp

theorem restoreState_captureState (r : Registry) (h : (tokensOf r).Nodup) :
    restoreState (captureState r) = r := by
  have hfold :
      (r.participants.map persistedOfParticipant).foldl
        (fun acc e => mapSet acc (participantOfPersisted e)) []
      = r.participants := by
    rw [List.foldl_map]
    simpa using foldl_mapSet_fresh r.participants [] (by simpa [tokensOf] using h)
  cases r
  simp_all [restoreState, captureState]

/-! ### Witness fixtures -/

/-- Sample participant "Alice". -/
def pAlice : Participant :=
  { token := "tokA", name := "Alice", assignmentToken := none
    registeredAt := "2024-12-01T10:00:00.000Z", ipAddress := none }

/-- Sample participant "Bob". -/
def pBob : Participant :=
  { token := "tokB", name := "Bob", assignmentToken := none
    registeredAt := "2024-12-01T11:00:00.000Z", ipAddress := none }

/-- System with Alice and Bob registered, registration open, no file yet. -/
def stAB : Sys :=
  { reg := { participants := [pAlice, pBob], assignmentsReady := false
             lastShuffledAt := none, registrationOpen := true }
    disk := none }

/-- System with only Alice registered. -/
def stSolo : Sys :=
  { reg := { participants := [pAlice], assignmentsReady := false
             lastShuffledAt := none, registrationOpen := true }
    disk := none }

/-! ### Claim theorems -/

/-- C5: for every registry containing 0 or 1 participants, shuffle fails with
the `StateError` ("At least two participants are required to shuffle."), the
whole system state — event flags, every participant record, and the on-disk
file — is identical to before the call, and no persist is attempted (the
disk is untouched for either value of the persist oracle). -/
theorem shuffle_too_few_unchanged (persistOk : Bool) (rand : Nat → Nat)
    (now : String) (st : Sys) (h : st.reg.participants.length ≤ 1) :
    shuffleHandler persistOk rand now st =
      (.tooFew "At least two participants are required to shuffle.", st) := by
  have hlt : (tokensOf st.reg).length < 2 := by
    simp only [tokensOf, List.length_map]
    omega
  have herr : shuffleAssignments rand now st.reg =
      .error "At least two participants are required to shuffle." := by
    unfold shuffleAssignments
    rw [if_pos hlt]
  simp [shuffleHandler, herr]

/-- C5 witness: shuffling the one-participant system fails with the
`StateError` and changes nothing. -/
theorem shuffle_too_few_unchanged_witness :
    shuffleHandler true (fun _ => 0) "2024-12-02T00:00:00.000Z" stSolo =
      (.tooFew "At least two participants are required to shuffle.", stSolo) :=
  shuffle_too_few_unchanged true (fun _ => 0) "2024-12-02T00:00:00.000Z" stSolo
    (by decide)

/-- C6: registration fails, mutating no state, exactly when a failure
condition holds — a `StateError` (403) when `registrationOpen` is false, a
`ValidationError` (400) when the name is empty after trimming or exceeds 64
characters while registration is open — and otherwise (durable write
succeeding) it succeeds and returns the freshly generated token. All
failures return the system (memory and disk) unchanged. -/
theorem register_validation (persistOk : Bool) (freshToken now : String)
    (ip : Option String) (rawName : String) (st : Sys) :
    (st.reg.registrationOpen = false →
      registerHandler persistOk freshToken now ip rawName st = (.closed, st))
    ∧ (st.reg.registrationOpen = true → jsTrim rawName = "" →
      registerHandler persistOk freshToken now ip rawName st =
        (.invalidName "Name is required", st))
    ∧ (st.reg.registrationOpen = true → jsTrim rawName ≠ "" →
        64 < (jsTrim rawName).length →
      registerHandler persistOk freshToken now ip rawName st =
        (.invalidName "Name must be 64 characters or fewer", st))
    ∧ (st.reg.registrationOpen = true → jsTrim rawName ≠ "" →
        (jsTrim rawName).length ≤ 64 →
      (registerHandler true freshToken now ip rawName st).1 =
        .registered freshToken) := by
  refine ⟨?_, ?_, ?_, ?_⟩
  · intro hclosed
    simp [registerHandler, hclosed]
  · intro hopen hempty
    simp [registerHandler, hopen, hempty]
  · intro hopen hne hlong
    simp [registerHandler, hopen, hne, hlong]
  · intro hopen hne hshort
    have : ¬ (jsTrim rawName).length > 64 := by omega
    simp [registerHandler, hopen, hne, this]

/-- C6 witness: with Alice and Bob registered and registration open,
registering "  Carol  " succeeds and returns the fresh token. -/
theorem register_validation_witness :
    (registerHandler true "tokC" "2024-12-01T12:00:00.000Z" none
      "  Carol  " stAB).1 = .registered "tokC" :=
  (register_validation true "tokC" "2024-12-01T12:00:00.000Z" none
      "  Carol  " stAB).2.2.2 (by decide) (by decide) (by decide)

/-- The inserted participant is always a member of the Map after `set`. -/
theorem mapSet_mem_self (ps : List Participant) (q : Participant) :
    q ∈ mapSet ps q := by
  unfold mapSet
  split
  · rename_i hany
    obtain ⟨r, hr, htok⟩ := List.any_eq_true.mp hany
    refine List.mem_map.mpr ⟨r, hr, ?_⟩
    simp [htok]
  · simp

/-- C2: a successful registration performed while `assignmentsReady` is true
clears every participant's `assignmentToken` and sets `assignmentsReady` to
false in the same atomic state transition (one step of `registerHandler`)
that inserts the new participant, so no state with the new participant but
stale assignments is ever observable. -/
theorem register_clears_assignments (freshToken now : String)
    (ip : Option String) (rawName : String) (st : Sys)
    (hready : st.reg.assignmentsReady = true)
    (hopen : st.reg.registrationOpen = true)
    (hne : jsTrim rawName ≠ "") (hlen : (jsTrim rawName).length ≤ 64) :
    (registerHandler true freshToken now ip rawName st).1 = .registered freshToken
    ∧ (∀ p ∈ (registerHandler true freshToken now ip rawName st).2.reg.participants,
        p.assignmentToken = none)
    ∧ (registerHandler true freshToken now ip rawName st).2.reg.assignmentsReady = false
    ∧ (∃ p ∈ (registerHandler true freshToken now ip rawName st).2.reg.participants,
        p.token = freshToken ∧ p.name = jsTrim rawName ∧ p.registeredAt = now) := by
  have hlen' : ¬ (jsTrim rawName).length > 64 := by omega
  have hres : registerHandler true freshToken now ip rawName st =
      (.registered freshToken,
        { reg :=
            { participants :=
                (mapSet st.reg.participants
                  { token := freshToken, name := jsTrim rawName, assignmentToken := none
                    registeredAt := now, ipAddress := ip }).map
                  (fun p => { p with assignmentToken := none })
              assignmentsReady := false
              lastShuffledAt := none
              registrationOpen := st.reg.registrationOpen }
          disk := persistStep true
            { participants :=
                (mapSet st.reg.participants
                  { token := freshToken, name := jsTrim rawName, assignmentToken := none
                    registeredAt := now, ipAddress := ip }).map
                  (fun p => { p with assignmentToken := none })
              assignmentsReady := false
              lastShuffledAt := none
              registrationOpen := st.reg.registrationOpen } st.disk }) := by
    simp [registerHandler, hopen, hne, hlen']
  refine ⟨by rw [hres], ?_, by rw [hres], ?_⟩
  · intro p hp
    rw [hres] at hp
    simp only at hp
    obtain ⟨q, _, rfl⟩ := List.mem_map.mp hp
    rfl
  · rw [hres]
    refine ⟨{ token := freshToken, name := jsTrim rawName, assignmentToken := none
              registeredAt := now, ipAddress := ip }, ?_, rfl, rfl, rfl⟩
    exact List.mem_map_of_mem (fun p => { p with assignmentToken := none })
      (mapSet_mem_self st.reg.participants _)

/-- C2 witness: registering "Carol" in a state with stale assignments (both
participants assigned, `assignmentsReady = true`, registration forced open)
succeeds, clears every `assignmentToken`, and resets `assignmentsReady`. -/
theorem register_clears_assignments_witness :
    ((registerHandler true "tokC" "2024-12-03T09:00:00.000Z" none "Carol"
        { reg := { participants :=
                     [{ pAlice with assignmentToken := some "tokB" },
                      { pBob with assignmentToken := some "tokA" }]
                   assignmentsReady := true
                   lastShuffledAt := some "2024-12-02T00:00:00.000Z"
                   registrationOpen := true }
          disk := none }).1 = .registered "tokC")
    ∧ (∀ p ∈ (registerHandler true "tokC" "2024-12-03T09:00:00.000Z" none "Carol"
        { reg := { participants :=
                     [{ pAlice with assignmentToken := some "tokB" },
                      { pBob with assignmentToken := some "tokA" }]
                   assignmentsReady := true
                   lastShuffledAt := some "2024-12-02T00:00:00.000Z"
                   registrationOpen := true }
          disk := none }).2.reg.participants, p.assignmentToken = none) := by
  have h := register_clears_assignments "tokC" "2024-12-03T09:00:00.000Z" none "Carol"
    { reg := { participants :=
                 [{ pAlice with assignmentToken := some "tokB" },
                  { pBob with assignmentToken := some "tokA" }]
               assignmentsReady := true
               lastShuffledAt := some "2024-12-02T00:00:00.000Z"
               registrationOpen := true }
      disk := none } (by decide) (by decide) (by decide) (by decide)
  exact ⟨h.1, h.2.1⟩

/-- C10: every successful registration — even when `assignmentsReady` was
already false — appends the new participant, unconditionally resets
`lastShuffledAt` to `null` and `assignmentsReady` to false, and clears every
participant's `assignmentToken`; apart from that clearing, every existing
participant keeps its token, name, registration time and IP address, in
order, and registration stays open. -/
theorem register_frame (freshToken now : String) (ip : Option String)
    (rawName : String) (st : Sys)
    (hopen : st.reg.registrationOpen = true)
    (hne : jsTrim rawName ≠ "") (hlen : (jsTrim rawName).length ≤ 64)
    (hfresh : freshToken ∉ tokensOf st.reg) :
    (registerHandler true freshToken now ip rawName st).2.reg.participants =
      st.reg.participants.map (fun p => { p with assignmentToken := none })
        ++ [{ token := freshToken, name := jsTrim rawName, assignmentToken := none
              registeredAt := now, ipAddress := ip }]
    ∧ (registerHandler true freshToken now ip rawName st).2.reg.lastShuffledAt = none
    ∧ (registerHandler true freshToken now ip rawName st).2.reg.assignmentsReady = false
    ∧ (registerHandler true freshToken now ip rawName st).2.reg.registrationOpen = true := by
  have hlen' : ¬ (jsTrim rawName).length > 64 := by omega
  have hfresh' : ∀ q ∈ st.reg.participants, q.token ≠ freshToken := by
    intro q hq hqe
    exact hfresh (hqe ▸ List.mem_map_of_mem Participant.token hq)
  have hins := mapSet_fresh st.reg.participants
    { token := freshToken, name := jsTrim rawName, assignmentToken := none
      registeredAt := now, ipAddress := ip } hfresh'
  refine ⟨?_, ?_, ?_, ?_⟩ <;>
    simp [registerHandler, hopen, hne, hlen', hins]

/-- C10 witness: registering "Dana" into the Alice/Bob system appends Dana,
clears assignments, and resets the shuffle timestamp. -/
theorem register_frame_witness :
    (registerHandler true "tokD" "2024-12-03T10:00:00.000Z" (some "10.0.0.7")
        "Dana" stAB).2.reg.participants =
      stAB.reg.participants.map (fun p => { p with assignmentToken := none })
        ++ [{ token := "tokD", name := "Dana", assignmentToken := none
              registeredAt := "2024-12-03T10:00:00.000Z", ipAddress := some "10.0.0.7" }]
    ∧ (registerHandler true "tokD" "2024-12-03T10:00:00.000Z" (some "10.0.0.7")
        "Dana" stAB).2.reg.lastShuffledAt = none := by
  have h := register_frame "tokD" "2024-12-03T10:00:00.000Z" (some "10.0.0.7")
    "Dana" stAB (by decide) (by decide) (by decide) (by decide)
  exact ⟨h.1, h.2.1⟩

/-- C9: a successful reopen always yields `registrationOpen = true`,
`assignmentsReady = false`, `lastShuffledAt = null`, and every participant
retained (same token, name, registration time and IP, in order) with
`assignmentToken = null`; and reopen is idempotent at the data level —
running it again returns the very same system state. -/
theorem reopen_spec (st : Sys) :
    (reopenHandler true st).1 = .reopened
    ∧ (reopenHandler true st).2.reg.registrationOpen = true
    ∧ (reopenHandler true st).2.reg.assignmentsReady = false
    ∧ (reopenHandler true st).2.reg.lastShuffledAt = none
    ∧ (∀ p ∈ (reopenHandler true st).2.reg.participants, p.assignmentToken = none)
    ∧ (reopenHandler true st).2.reg.participants.map
        (fun p => (p.token, p.name, p.registeredAt, p.ipAddress))
      = st.reg.participants.map (fun p => (p.token, p.name, p.registeredAt, p.ipAddress))
    ∧ reopenHandler true (reopenHandler true st).2 = (.reopened, (reopenHandler true st).2) := by
  refine ⟨rfl, rfl, rfl, rfl, ?_, ?_, ?_⟩
  · intro p hp
    simp only [reopenHandler, persistStep] at hp
    obtain ⟨q, _, rfl⟩ := List.mem_map.mp hp
    rfl
  · simp [reopenHandler, persistStep]
  · have hclear :
        ((st.reg.participants.map (fun p => { p with assignmentToken := none })).map
          (fun p => { p with assignmentToken := none }))
        = st.reg.participants.map (fun p => { p with assignmentToken := none }) := by
      rw [List.map_map]
      rfl
    simp [reopenHandler, persistStep, hclear]

/-- C3: when the durable persist fails, each of the three mutations —
register (past its validation), shuffle (with at least two participants),
and reopen — rolls the in-memory registry back to the snapshot captured
immediately before the mutation, leaves the on-disk canonical file at its
last committed version, and surfaces the failure as the `PersistenceError`
outcome (HTTP 500). -/
theorem persist_failure_rollback (freshToken now : String) (ip : Option String)
    (rawName : String) (rand : Nat → Nat) (st : Sys)
    (hnd : (tokensOf st.reg).Nodup) :
    (st.reg.registrationOpen = true → jsTrim rawName ≠ "" →
      (jsTrim rawName).length ≤ 64 →
      registerHandler false freshToken now ip rawName st = (.persistFailed, st))
    ∧ (2 ≤ st.reg.participants.length →
      shuffleHandler false rand now st = (.persistFailed, st))
    ∧ reopenHandler false st = (.persistFailed, st) := by
  have hrestore := restoreState_captureState st.reg hnd
  refine ⟨?_, ?_, ?_⟩
  · intro hopen hne hlen
    have hlen' : ¬ (jsTrim rawName).length > 64 := by omega
    simp [registerHandler, hopen, hne, hlen', hrestore]
  · intro hn
    have hge : ¬ (tokensOf st.reg).length < 2 := by
      simp only [tokensOf, List.length_map]
      omega
    have hok : shuffleAssignments rand now st.reg =
        .ok { st.reg with
                participants :=
                  applyAssignments (fisherYates rand (tokensOf st.reg)) st.reg.participants
                assignmentsReady := true
                lastShuffledAt := some now } := by
      unfold shuffleAssignments
      rw [if_neg hge]
    simp [shuffleHandler, hok, hrestore]
  · simp [reopenHandler, hrestore]

/-- C3 witness: with Alice and Bob registered, a failing durable write makes
register, shuffle and reopen all return the `PersistenceError` outcome with
the system (memory and disk) exactly as before. -/
theorem persist_failure_rollback_witness :
    registerHandler false "tokC" "2024-12-03T11:00:00.000Z" none "Carol" stAB =
      (.persistFailed, stAB)
    ∧ shuffleHandler false (fun _ => 0) "2024-12-03T11:00:00.000Z" stAB =
      (.persistFailed, stAB)
    ∧ reopenHandler false stAB = (.persistFailed, stAB) := by
  have h := persist_failure_rollback "tokC" "2024-12-03T11:00:00.000Z" none "Carol"
    (fun _ => 0) stAB (by decide)
  exact ⟨h.1 (by decide) (by decide) (by decide), h.2.1 (by decide), h.2.2⟩

/-- C8: starting from a system where `registrationOpen` and
`assignmentsReady` are not both true (in memory nor in the persisted file),
every completed mutation — register, shuffle and reopen, on any outcome
including rollback — preserves that invariant for both the in-memory state
and the on-disk file; and restoring any persisted state satisfying the flag
condition yields an in-memory state satisfying it. -/
theorem flags_invariant_preserved (persistOk : Bool) (freshToken now : String)
    (ip : Option String) (rawName : String) (rand : Nat → Nat) (st : Sys)
    (hinv : sysFlagsOk st = true) :
    sysFlagsOk (registerHandler persistOk freshToken now ip rawName st).2 = true
    ∧ sysFlagsOk (shuffleHandler persistOk rand now st).2 = true
    ∧ sysFlagsOk (reopenHandler persistOk st).2 = true
    ∧ (∀ s : PersistedState, snapshotFlagsOk s = true →
        flagsOk (restoreState s) = true) := by
  have hmem : flagsOk st.reg = true := by
    simp only [sysFlagsOk, Bool.and_eq_true] at hinv
    exact hinv.1
  refine ⟨?_, ?_, ?_, ?_⟩
  · by_cases hopen : st.reg.registrationOpen = true
    · by_cases hne : jsTrim rawName = ""
      · simpa [registerHandler, hopen, hne] using hinv
      · by_cases hlong : (jsTrim rawName).length > 64
        · simpa [registerHandler, hopen, hne, hlong] using hinv
        · cases persistOk
          · simpa [registerHandler, hopen, hne, hlong, sysFlagsOk, flagsOk,
              restoreState, captureState, Bool.and_eq_true] using hinv
          · simp [registerHandler, hopen, hne, hlong, sysFlagsOk, flagsOk,
              snapshotFlagsOk, persistStep, captureState]
    · have hclosed : st.reg.registrationOpen = false := by
        simpa using hopen
      simpa [registerHandler, hclosed] using hinv
  · by_cases hlen : (tokensOf st.reg).length < 2
    · have herr : shuffleAssignments rand now st.reg =
          .error "At least two participants are required to shuffle." := by
        unfold shuffleAssignments
        rw [if_pos hlen]
      simpa [shuffleHandler, herr] using hinv
    · have hok : shuffleAssignments rand now st.reg =
          .ok { st.reg with
                  participants :=
                    applyAssignments (fisherYates rand (tokensOf st.reg)) st.reg.participants
                  assignmentsReady := true
                  lastShuffledAt := some now } := by
        unfold shuffleAssignments
        rw [if_neg hlen]
      cases persistOk
      · simpa [shuffleHandler, hok, sysFlagsOk, flagsOk, restoreState,
          captureState] using hinv
      · simp [shuffleHandler, hok, sysFlagsOk, flagsOk, snapshotFlagsOk,
          persistStep, captureState]
  · cases persistOk
    · simpa [reopenHandler, sysFlagsOk, flagsOk, restoreState, captureState] using hinv
    · simp [reopenHandler, sysFlagsOk, flagsOk, snapshotFlagsOk, persistStep,
        captureState]
  · intro s hs
    simpa [flagsOk, restoreState, snapshotFlagsOk] using hs

/-- C8 witness: the invariant holds after each mutation applied to the
Alice/Bob system, and after restoring its captured snapshot. -/
theorem flags_invariant_preserved_witness :
    sysFlagsOk (registerHandler true "tokC" "2024-12-03T12:00:00.000Z" none
      "Carol" stAB).2 = true
    ∧ sysFlagsOk (shuffleHandler true (fun _ => 0) "2024-12-03T12:00:00.000Z" stAB).2 = true
    ∧ sysFlagsOk (reopenHandler true stAB).2 = true := by
  have h := flags_invariant_preserved true "tokC" "2024-12-03T12:00:00.000Z" none
    "Carol" (fun _ => 0) stAB (by decide)
  exact ⟨h.1, h.2.1, h.2.2.1⟩

/-! ### Persistence round trip (C4) -/

/-- Sanitizing a serialized participant whose token, name and registration
time are non-empty and whose assignment token is not the empty string keeps
the record, preserving those four fields exactly. -/
theorem sanitize_participantToJson (now : String) (e : PersistedParticipant)
    (htok : e.token ≠ "") (hnm : e.name ≠ "") (hreg : e.registeredAt ≠ "")
    (hassign : e.assignmentToken ≠ some "") :
    sanitizeRecord now (participantToJson e) =
      some { token := e.token, name := e.name, assignmentToken := e.assignmentToken
             registeredAt := e.registeredAt
             ipAddress := match e.ipAddress with
               | some u => if jsTrim u = "" then none else some ((jsTrim u).take 128)
               | none => none } := by
  obtain ⟨tok, nm, assign, reg, ipa⟩ := e
  simp only [PersistedParticipant.mk.injEq] at *
  cases assign with
  | none =>
    cases ipa <;>
      simp [sanitizeRecord, participantToJson, fieldString, lookupField, jsToString,
        htok, hnm, hreg]
  | some t =>
    have ht : t ≠ "" := fun h => hassign (by simp [h])
    cases ipa <;>
      simp [sanitizeRecord, participantToJson, fieldString, lookupField, jsToString,
        htok, hnm, hreg, ht]

/-- Serializing then sanitizing a list of good participant records preserves
the token/name/assignment/registeredAt projection of every record. -/
theorem roundtrip_participants (now : String) :
    ∀ ps : List PersistedParticipant,
      (∀ e ∈ ps, e.token ≠ "" ∧ e.name ≠ "" ∧ e.registeredAt ≠ ""
        ∧ e.assignmentToken ≠ some "") →
      ((ps.map participantToJson).filterMap (sanitizeRecord now)).map
          (fun e => (e.token, e.name, e.assignmentToken, e.registeredAt))
        = ps.map (fun e => (e.token, e.name, e.assignmentToken, e.registeredAt)) := by
  intro ps
  induction ps with
  | nil => intro _; rfl
  | cons e ps ih =>
    intro h
    obtain ⟨htok, hnm, hreg, hassign⟩ := h e (by simp)
    have hrest := fun x hx => h x (List.mem_cons_of_mem e hx)
    simp only [List.map_cons, List.filterMap_cons,
      sanitize_participantToJson now e htok hnm hreg hassign]
    simpa using ih hrest

/-- C4: persisting a snapshot of any reachable registry state (unique,
non-empty tokens; non-empty names and registration timestamps; no empty
assignment token or shuffle timestamp — all guaranteed by the public
operations) and loading the resulting file reproduces a registry with an
identical participant sequence by token, name, assignmentToken and
registeredAt, and identical `assignmentsReady`, `lastShuffledAt` and
`registrationOpen` flags: persist-then-load is the identity on the
observable state. -/
theorem persist_load_roundtrip (now : String) (r : Registry)
    (hnd : (tokensOf r).Nodup)
    (hfields : ∀ p ∈ r.participants, p.token ≠ "" ∧ p.name ≠ ""
      ∧ p.registeredAt ≠ "" ∧ p.assignmentToken ≠ some "")
    (hls : r.lastShuffledAt ≠ some "") :
    (loadPersistedJson now (stateToJson (captureState r))).map observable
      = .ok (observable r) := by
  -- reduce the top-level sanitization of the serialized snapshot
  have hsan : loadSanitize now (stateToJson (captureState r)) =
      .ok { participants :=
              ((captureState r).participants.map participantToJson).filterMap
                (sanitizeRecord now)
            assignmentsReady := r.assignmentsReady
            lastShuffledAt := r.lastShuffledAt
            registrationOpen := r.registrationOpen } := by
    cases hlsa : r.lastShuffledAt with
    | none =>
      simp [loadSanitize, stateToJson, lookupField, jsTruthyOpt, jsTruthy,
        captureState, hlsa]
    | some t =>
      have ht : t ≠ "" := fun h => hls (by rw [hlsa, h])
      simp [loadSanitize, stateToJson, lookupField, jsTruthyOpt, jsTruthy,
        captureState, hlsa, ht]
  -- the captured records satisfy the sanitizer's keep-conditions
  have hfields' : ∀ e ∈ (captureState r).participants,
      e.token ≠ "" ∧ e.name ≠ "" ∧ e.registeredAt ≠ ""
        ∧ e.assignmentToken ≠ some "" := by
    intro e he
    simp only [captureState, List.mem_map] at he
    obtain ⟨p, hp, rfl⟩ := he
    exact hfields p hp
  have hproj := roundtrip_participants now (captureState r).participants hfields'
  -- tokens of the sanitized list coincide with the original tokens
  have htokens :
      (((captureState r).participants.map participantToJson).filterMap
          (sanitizeRecord now)).map PersistedParticipant.token
        = tokensOf r := by
    have h1 := congrArg (List.map (fun x : String × String × Option String × String => x.1)) hproj
    simpa [List.map_map, Function.comp, tokensOf, captureState,
      persistedOfParticipant] using h1
  -- restoring the sanitized list re-inserts it verbatim (fresh tokens)
  have hrestore :
      ((((captureState r).participants.map participantToJson).filterMap
          (sanitizeRecord now)).map participantOfPersisted).foldl
          (fun a e => mapSet a e) []
        = (((captureState r).participants.map participantToJson).filterMap
            (sanitizeRecord now)).map participantOfPersisted := by
    have hnd' : ((((captureState r).participants.map participantToJson).filterMap
        (sanitizeRecord now)).map participantOfPersisted).map Participant.token
          |>.Nodup := by
      rw [List.map_map]
      have : (Participant.token ∘ participantOfPersisted) =
          PersistedParticipant.token := rfl
      rw [this, htokens]
      exact hnd
    simpa using foldl_mapSet_fresh _ [] (by simpa using hnd')
  simp only [loadPersistedJson, hsan, Except.map, observable, restoreState,
    List.foldl_map]
  refine congrArg Except.ok (Prod.ext ?_ rfl)
  simp only
  rw [← List.foldl_map participantOfPersisted (fun a e => mapSet a e), hrestore,
    List.map_map]
  have hcomp : ((fun p : Participant =>
      (p.token, p.name, p.assignmentToken, p.registeredAt)) ∘ participantOfPersisted)
    = (fun e : PersistedParticipant =>
      (e.token, e.name, e.assignmentToken, e.registeredAt)) := rfl
  rw [hcomp, hproj]
  simp only [captureState, List.map_map]
  rfl

/-- C4 witness: the Alice/Bob registry survives a persist/load round trip
with its observable state intact. -/
theorem persist_load_roundtrip_witness :
    (loadPersistedJson "2024-12-04T00:00:00.000Z"
        (stateToJson (captureState stAB.reg))).map observable
      = .ok (observable stAB.reg) :=
  persist_load_roundtrip "2024-12-04T00:00:00.000Z" stAB.reg
    (by decide) (by decide) (by decide)

/-! ### Fisher-Yates permutation lemmas (C1) -/

/-- Replacing the element at a valid position and re-inserting the removed
element at the front is a permutation of putting the new element in front. -/
theorem getElem_cons_set_perm (x : String) :
    ∀ (t : List String) (m : Nat) (hm : m < t.length),
      (t[m] :: t.set m x).Perm (x :: t) := by
  intro t
  induction t with
  | nil => intro m hm; exact absurd hm (by simp)
  | cons b t ih =>
    intro m hm
    cases m with
    | zero => simpa using List.Perm.swap x b t
    | succ k =>
      have hk : k < t.length := by simpa using hm
      have h1 : ((b :: t)[k+1] :: (b :: t).set (k+1) x) = t[k] :: b :: t.set k x := by
        simp
      rw [h1]
      exact (List.Perm.swap b t[k] (t.set k x)).trans
        (((ih k hk).cons b).trans (List.Perm.swap x b t))

/-- One Fisher-Yates swap permutes the list. -/
theorem listSwap_perm : ∀ (l : List String) (i j : Nat), (listSwap l i j).Perm l := by
  intro l
  induction l with
  | nil => intro i j; cases i <;> cases j <;> simp [listSwap]
  | cons a t ih =>
    intro i j
    cases i with
    | zero =>
      cases j with
      | zero => simp [listSwap]
      | succ k =>
        cases hk : t[k]? with
        | none => simp [listSwap, hk]
        | some b =>
          have hklt : k < t.length := by
            by_contra hge
            rw [List.getElem?_eq_none (by omega)] at hk
            cases hk
          have hb : t[k] = b := by
            have := List.getElem?_eq_getElem hklt
            rw [hk] at this
            exact (Option.some.injEq ..).mp this.symm
          simpa [listSwap, hk, hb.symm] using getElem_cons_set_perm a t k hklt
    | succ m =>
      cases j with
      | zero =>
        cases hm : t[m]? with
        | none => simp [listSwap, hm]
        | some b =>
          have hmlt : m < t.length := by
            by_contra hge
            rw [List.getElem?_eq_none (by omega)] at hm
            cases hm
          have hb : t[m] = b := by
            have := List.getElem?_eq_getElem hmlt
            rw [hm] at this
            exact (Option.some.injEq ..).mp this.symm
          simpa [listSwap, hm, hb.symm] using getElem_cons_set_perm a t m hmlt
      | succ k =>
        cases hm : t[m]? with
        | none => simp [listSwap, hm]
        | some b =>
          cases hk : t[k]? with
          | none => simp [listSwap, hm, hk]
          | some c =>
            have : listSwap (a :: t) (m+1) (k+1) = a :: listSwap t m k := by
              simp [listSwap, hm, hk]
            rw [this]
            exact (ih m k).cons a

/-- The whole Fisher-Yates loop permutes the list. -/
theorem fyLoop_perm (rand : Nat → Nat) : ∀ (k : Nat) (l : List String),
    (fyLoop rand k l).Perm l := by
  intro k
  induction k with
  | zero => intro l; simp [fyLoop]
  | succ i ih =>
    intro l
    exact (ih (listSwap l (i+1) (rand (i+1)))).trans (listSwap_perm ..)

/-- `fisherYates` permutes the token list. -/
theorem fisherYates_perm (rand : Nat → Nat) (l : List String) :
    (fisherYates rand l).Perm l :=
  fyLoop_perm rand (l.length - 1) l

/-! ### Assignment-loop lemmas (C1) -/

/-- A fold of element-wise maps is the map of the element-wise folds. -/
theorem foldl_map_inner {α β : Type} (f : β → α → α) :
    ∀ (es : List β) (xs : List α),
      es.foldl (fun acc e => acc.map (f e)) xs
        = xs.map (fun x => es.foldl (fun q e => f e q) x) := by
  intro es
  induction es with
  | nil => intro xs; simp
  | cons e es ih =>
    intro xs
    simp only [List.foldl_cons]
    rw [ih (xs.map (f e)), List.map_map]
    rfl

/-- `assignStep` never changes the participant's token. -/
theorem assignStep_token (s : List String) (e : Nat × String) (p : Participant) :
    (assignStep s e p).token = p.token := by
  unfold assignStep
  split <;> rfl

/-- Folding `assignStep` never changes the participant's token. -/
theorem foldl_assignStep_token (s : List String) :
    ∀ (es : List (Nat × String)) (p : Participant),
      (es.foldl (fun q e => assignStep s e q) p).token = p.token := by
  intro es
  induction es with
  | nil => intro p; rfl
  | cons e es ih =>
    intro p
    simp only [List.foldl_cons]
    rw [ih (assignStep s e p), assignStep_token]

/-- A fold of `assignStep` over giver entries that never mention the
participant's token leaves the participant unchanged. -/
theorem foldl_assignStep_no_match (s : List String) :
    ∀ (es : List (Nat × String)) (p : Participant),
      (∀ e ∈ es, e.2 ≠ p.token) →
      es.foldl (fun q e => assignStep s e q) p = p := by
  intro es
  induction es with
  | nil => intro p _; rfl
  | cons e es ih =>
    intro p h
    have he : assignStep s e p = p := by
      unfold assignStep
      rw [if_neg]
      exact fun hx => h e (by simp) hx.symm
    simp only [List.foldl_cons, he]
    exact ih p (fun x hx => h x (List.mem_cons_of_mem e hx))

/-- `enumFrom` distributes over append. -/
theorem enumFrom_append_eq {α : Type} :
    ∀ (l1 : List α) (n : Nat) (l2 : List α),
      (l1 ++ l2).enumFrom n = l1.enumFrom n ++ l2.enumFrom (n + l1.length) := by
  intro l1
  induction l1 with
  | nil => intro n l2; simp
  | cons a t ih =>
    intro n l2
    show (n, a) :: (t ++ l2).enumFrom (n + 1)
        = (n, a) :: (t.enumFrom (n + 1) ++ l2.enumFrom (n + (t.length + 1)))
    rw [ih (n + 1) l2]
    have harith : n + 1 + t.length = n + (t.length + 1) := by omega
    rw [harith]

/-- Second components of `enumFrom` entries are list members. -/
theorem mem_enumFrom_snd {α : Type} :
    ∀ (l : List α) (n : Nat) (e : Nat × α), e ∈ l.enumFrom n → e.2 ∈ l := by
  intro l
  induction l with
  | nil => intro n e he; simp [List.enumFrom] at he
  | cons a t ih =>
    intro n e he
    simp only [List.enumFrom, List.mem_cons] at he
    cases he with
    | inl h => simp [h]
    | inr h => exact List.mem_cons_of_mem a (ih (n + 1) e h)

/-- Running the whole enumerated assignment fold on a participant whose
token sits at position `i` of the duplicate-free shuffled list sets its
`assignmentToken` to the successor in the cycle and changes nothing else. -/
theorem foldl_assignStep_at (s : List String) (hnd : s.Nodup) (p : Participant)
    (i : Nat) (hi : i < s.length) (hp : p.token = s[i]) :
    s.enum.foldl (fun q e => assignStep s e q) p
      = { p with assignmentToken := s[(i + 1) % s.length]? } := by
  have hnotA : p.token ∉ s.take i := by
    intro hmem
    obtain ⟨j, hj, hjeq⟩ := List.mem_iff_getElem.mp hmem
    have hjlen : j < i := by
      simp only [List.length_take] at hj
      omega
    have hjs : j < s.length := by omega
    have : s[j] = s[i] := by
      rw [← hp, ← hjeq]
      exact (List.getElem_take ..).symm
    have := (hnd.getElem_inj_iff).mp this
    omega
  have hnotB : p.token ∉ s.drop (i + 1) := by
    intro hmem
    obtain ⟨j, hj, hjeq⟩ := List.mem_iff_getElem.mp hmem
    have hjs : i + 1 + j < s.length := by
      simp only [List.length_drop] at hj
      omega
    have : s[i + 1 + j] = s[i] := by
      rw [← hp, ← hjeq]
      exact (List.getElem_drop ..).symm
    have := (hnd.getElem_inj_iff).mp this
    omega
  have hsdec : s = s.take i ++ s[i] :: s.drop (i + 1) := by
    conv_lhs => rw [← List.take_append_drop i s]
    rw [List.drop_eq_getElem_cons hi]
  have hAlen : (s.take i).length = i := by
    simp only [List.length_take]
    omega
  have henum : s.enum
      = (s.take i).enumFrom 0 ++ (i, s[i]) :: (s.drop (i + 1)).enumFrom (i + 1) := by
    have h0 : s.enum = (s.take i ++ s[i] :: s.drop (i + 1)).enumFrom 0 := by
      rw [← hsdec]
      rfl
    rw [h0, enumFrom_append_eq, hAlen]
    simp [List.enumFrom]
  rw [henum, List.foldl_append]
  have hfoldA : ((s.take i).enumFrom 0).foldl (fun q e => assignStep s e q) p = p := by
    apply foldl_assignStep_no_match
    intro e he hcontra
    exact hnotA (hcontra ▸ mem_enumFrom_snd (s.take i) 0 e he)
  rw [hfoldA]
  simp only [List.foldl_cons]
  have hstep : assignStep s (i, s[i]) p
      = { p with assignmentToken := s[(i + 1) % s.length]? } := by
    unfold assignStep
    rw [if_pos hp]
  rw [hstep]
  apply foldl_assignStep_no_match
  intro e he hcontra
  apply hnotB
  have hmem : e.2 ∈ s.drop (i + 1) := mem_enumFrom_snd (s.drop (i + 1)) (i + 1) e he
  have he2 : e.2 = p.token := hcontra
  rwa [he2] at hmem

/-- After the `forEach` assignment loop over a duplicate-free shuffled list,
the participant keyed by `s[i]` points to `s[(i+1) % |s|]`. -/
theorem nextOf_applyAssignments (s : List String) (ps : List Participant)
    (hnd : s.Nodup) (i : Nat) (hi : i < s.length)
    (hex : ∃ p ∈ ps, p.token = s[i]) (r : Registry)
    (hr : r.participants = applyAssignments s ps) :
    nextOf r s[i] = s[(i + 1) % s.length]? := by
  unfold nextOf
  rw [hr]
  unfold applyAssignments
  rw [foldl_map_inner, List.find?_map]
  have hpred : ((fun p : Participant => p.token == s[i])
      ∘ (fun p => s.enum.foldl (fun q e => assignStep s e q) p))
      = (fun p : Participant => p.token == s[i]) := by
    funext p
    simp [Function.comp, foldl_assignStep_token]
  rw [hpred]
  obtain ⟨p0, hp0mem, hp0tok⟩ := hex
  have hfs : (ps.find? (fun p => p.token == s[i])).isSome :=
    List.find?_isSome.mpr ⟨p0, hp0mem, by simp [hp0tok]⟩
  obtain ⟨q, hq⟩ := Option.isSome_iff_exists.mp hfs
  rw [hq]
  have hqtok : q.token = s[i] := by simpa using List.find?_some hq
  simp only [Option.map_some']
  rw [foldl_assignStep_at s hnd q i hi hqtok]

/-- Iterating the assignment links from position `i` for `k` steps lands on
position `(i + k) % |s|` of the shuffled list. -/
theorem iterNext_cycle (r : Registry) (s : List String)
    (hpos : 0 < s.length)
    (hnext : ∀ (i : Nat) (hi : i < s.length), nextOf r s[i] = s[(i + 1) % s.length]?) :
    ∀ (k i : Nat) (hi : i < s.length),
      iterNext r k s[i] = s[(i + k) % s.length]? := by
  intro k
  induction k with
  | zero =>
    intro i hi
    rw [iterNext, Nat.add_zero, Nat.mod_eq_of_lt hi, List.getElem?_eq_getElem hi]
  | succ k ih =>
    intro i hi
    have hi1 : (i + 1) % s.length < s.length := Nat.mod_lt _ hpos
    have hstep : iterNext r (k + 1) s[i] = iterNext r k s[(i + 1) % s.length] := by
      rw [iterNext, hnext i hi, List.getElem?_eq_getElem hi1]
    rw [hstep, ih _ hi1]
    have hmod : ((i + 1) % s.length + k) % s.length = (i + (k + 1)) % s.length := by
      have h1 : (i + 1) % s.length + k ≡ i + 1 + k [MOD s.length] :=
        Nat.ModEq.add_right k (Nat.mod_modEq (i + 1) s.length)
      have h2 : i + 1 + k = i + (k + 1) := by omega
      rw [h2] at h1
      exact h1
    rw [hmod]

/-- The in-memory registry after a successful shuffle request. -/
def postShuffle (rand : Nat → Nat) (now : String) (st : Sys) : Registry :=
  (shuffleHandler true rand now st).2.reg

/-- C1: a successful shuffle over `n ≥ 2` participants (with the Map's
unique tokens) gives every participant an `assignmentToken` different from
its own token, and following the links from any participant returns to the
start after exactly `n` steps, with the first `n` stops pairwise distinct
and reaching every participant — a single n-cycle; the same mutation sets
`assignmentsReady = true`, `lastShuffledAt` to the current time, and
`registrationOpen = false`. -/
theorem shuffle_single_cycle (rand : Nat → Nat) (now : String) (st : Sys)
    (hnd : (tokensOf st.reg).Nodup) (hn : 2 ≤ st.reg.participants.length) :
    (shuffleHandler true rand now st).1 = .shuffled
    ∧ (postShuffle rand now st).assignmentsReady = true
    ∧ (postShuffle rand now st).lastShuffledAt = some now
    ∧ (postShuffle rand now st).registrationOpen = false
    ∧ (postShuffle rand now st).participants.length = st.reg.participants.length
    ∧ (∀ p ∈ (postShuffle rand now st).participants,
        ∃ t, p.assignmentToken = some t ∧ t ≠ p.token)
    ∧ (∀ p ∈ (postShuffle rand now st).participants,
        iterNext (postShuffle rand now st) st.reg.participants.length p.token
          = some p.token)
    ∧ (∀ p ∈ (postShuffle rand now st).participants, ∀ k1 k2 : Nat,
        k1 < st.reg.participants.length → k2 < st.reg.participants.length →
        k1 ≠ k2 →
        iterNext (postShuffle rand now st) k1 p.token
          ≠ iterNext (postShuffle rand now st) k2 p.token)
    ∧ (∀ p ∈ (postShuffle rand now st).participants,
        ∀ q ∈ (postShuffle rand now st).participants,
        ∃ k : Nat, k < st.reg.participants.length ∧
          iterNext (postShuffle rand now st) k p.token = some q.token) := by
  have hlen2 : ¬ (tokensOf st.reg).length < 2 := by
    simp only [tokensOf, List.length_map]
    omega
  have hok : shuffleAssignments rand now st.reg =
      .ok { st.reg with
              participants :=
                applyAssignments (fisherYates rand (tokensOf st.reg)) st.reg.participants
              assignmentsReady := true
              lastShuffledAt := some now } := by
    unfold shuffleAssignments
    rw [if_neg hlen2]
  have hres : (shuffleHandler true rand now st).1 = .shuffled := by
    simp [shuffleHandler, hok]
  have hpost : postShuffle rand now st =
      { participants :=
          applyAssignments (fisherYates rand (tokensOf st.reg)) st.reg.participants
        assignmentsReady := true
        lastShuffledAt := some now
        registrationOpen := false } := by
    unfold postShuffle shuffleHandler
    rw [hok]
    rfl
  have hperm : (fisherYates rand (tokensOf st.reg)).Perm (tokensOf st.reg) :=
    fisherYates_perm rand (tokensOf st.reg)
  have hnds : (fisherYates rand (tokensOf st.reg)).Nodup := hperm.nodup_iff.mpr hnd
  have hslen : (fisherYates rand (tokensOf st.reg)).length
      = st.reg.participants.length := by
    rw [hperm.length_eq]
    simp [tokensOf]
  have hpos : 0 < (fisherYates rand (tokensOf st.reg)).length := by omega
  have hparts : (postShuffle rand now st).participants
      = st.reg.participants.map
          (fun p => (fisherYates rand (tokensOf st.reg)).enum.foldl
            (fun q e => assignStep (fisherYates rand (tokensOf st.reg)) e q) p) := by
    rw [hpost]
    show applyAssignments (fisherYates rand (tokensOf st.reg)) st.reg.participants = _
    unfold applyAssignments
    rw [foldl_map_inner]
  -- every shuffled-list entry is some participant's token
  have hex : ∀ (i : Nat) (hi : i < (fisherYates rand (tokensOf st.reg)).length),
      ∃ p ∈ st.reg.participants,
        p.token = (fisherYates rand (tokensOf st.reg))[i] := by
    intro i hi
    have hmem : (fisherYates rand (tokensOf st.reg))[i] ∈ tokensOf st.reg :=
      hperm.mem_iff.mp (List.getElem_mem hi)
    obtain ⟨p, hp, heq⟩ := List.mem_map.mp hmem
    exact ⟨p, hp, heq⟩
  have hnext : ∀ (i : Nat) (hi : i < (fisherYates rand (tokensOf st.reg)).length),
      nextOf (postShuffle rand now st) (fisherYates rand (tokensOf st.reg))[i]
        = (fisherYates rand (tokensOf st.reg))[(i + 1) %
            (fisherYates rand (tokensOf st.reg)).length]? := by
    intro i hi
    exact nextOf_applyAssignments (fisherYates rand (tokensOf st.reg))
      st.reg.participants hnds i hi (hex i hi) (postShuffle rand now st) (by rw [hpost])
  have hiter := iterNext_cycle (postShuffle rand now st)
    (fisherYates rand (tokensOf st.reg)) hpos hnext
  -- every post-shuffle participant sits at a position of the shuffled list
  have hmaster : ∀ p ∈ (postShuffle rand now st).participants,
      ∃ (i : Nat) (hi : i < (fisherYates rand (tokensOf st.reg)).length),
        p.token = (fisherYates rand (tokensOf st.reg))[i]
        ∧ p.assignmentToken = (fisherYates rand (tokensOf st.reg))[(i + 1) %
            (fisherYates rand (tokensOf st.reg)).length]? := by
    intro p hp
    rw [hparts] at hp
    obtain ⟨q, hq, rfl⟩ := List.mem_map.mp hp
    have hmem_s : q.token ∈ fisherYates rand (tokensOf st.reg) :=
      hperm.mem_iff.mpr (List.mem_map_of_mem Participant.token hq)
    obtain ⟨i, hi, hieq⟩ := List.mem_iff_getElem.mp hmem_s
    refine ⟨i, hi, ?_, ?_⟩
    · rw [foldl_assignStep_token, ← hieq]
    · rw [foldl_assignStep_at (fisherYates rand (tokensOf st.reg)) hnds q i hi hieq.symm]
  refine ⟨hres, by rw [hpost], by rw [hpost], by rw [hpost], ?_, ?_, ?_, ?_, ?_⟩
  · rw [hparts, List.length_map]
  · -- no self-assignment
    intro p hp
    obtain ⟨i, hi, htok, hassign⟩ := hmaster p hp
    have hi1 : (i + 1) % (fisherYates rand (tokensOf st.reg)).length
        < (fisherYates rand (tokensOf st.reg)).length := Nat.mod_lt _ hpos
    refine ⟨(fisherYates rand (tokensOf st.reg))[(i + 1) %
      (fisherYates rand (tokensOf st.reg)).length], ?_, ?_⟩
    · rw [hassign, List.getElem?_eq_getElem hi1]
    · rw [htok]
      intro hcontra
      have hidx := hnds.getElem_inj_iff.mp hcontra
      by_cases hlast : i + 1 = (fisherYates rand (tokensOf st.reg)).length
      · rw [hlast, Nat.mod_self] at hidx
        omega
      · rw [Nat.mod_eq_of_lt (by omega)] at hidx
        omega
  · -- the cycle closes after exactly n steps
    intro p hp
    obtain ⟨i, hi, htok, _⟩ := hmaster p hp
    rw [htok, hiter st.reg.participants.length i hi, ← hslen, Nat.add_mod_right,
      Nat.mod_eq_of_lt hi, List.getElem?_eq_getElem hi]
  · -- the first n stops are pairwise distinct
    intro p hp k1 k2 hk1 hk2 hne
    obtain ⟨i, hi, htok, _⟩ := hmaster p hp
    rw [htok, hiter k1 i hi, hiter k2 i hi]
    have hb1 : (i + k1) % (fisherYates rand (tokensOf st.reg)).length
        < (fisherYates rand (tokensOf st.reg)).length := Nat.mod_lt _ hpos
    have hb2 : (i + k2) % (fisherYates rand (tokensOf st.reg)).length
        < (fisherYates rand (tokensOf st.reg)).length := Nat.mod_lt _ hpos
    rw [List.getElem?_eq_getElem hb1, List.getElem?_eq_getElem hb2]
    intro hcontra
    have heq := hnds.getElem_inj_iff.mp (Option.some.injEq .. |>.mp hcontra)
    have hmodeq : k1 ≡ k2 [MOD (fisherYates rand (tokensOf st.reg)).length] :=
      Nat.ModEq.add_left_cancel' i heq
    have : k1 % (fisherYates rand (tokensOf st.reg)).length
        = k2 % (fisherYates rand (tokensOf st.reg)).length := hmodeq
    rw [Nat.mod_eq_of_lt (by omega), Nat.mod_eq_of_lt (by omega)] at this
    exact hne this
  · -- the cycle reaches every participant within n steps
    intro p hp q hq
    obtain ⟨i, hi, htokp, _⟩ := hmaster p hp
    obtain ⟨j, hj, htokq, _⟩ := hmaster q hq
    refine ⟨((fisherYates rand (tokensOf st.reg)).length + j - i) %
      (fisherYates rand (tokensOf st.reg)).length, ?_, ?_⟩
    · rw [← hslen]
      exact Nat.mod_lt _ hpos
    · rw [htokp, hiter _ i hi]
      have h1 : (i + ((fisherYates rand (tokensOf st.reg)).length + j - i) %
            (fisherYates rand (tokensOf st.reg)).length) %
              (fisherYates rand (tokensOf st.reg)).length
          = (i + ((fisherYates rand (tokensOf st.reg)).length + j - i)) %
              (fisherYates rand (tokensOf st.reg)).length :=
        Nat.ModEq.add_left i (Nat.mod_modEq _ _)
      have h2 : i + ((fisherYates rand (tokensOf st.reg)).length + j - i)
          = (fisherYates rand (tokensOf st.reg)).length + j := by omega
      rw [h1, h2, Nat.add_mod_left, Nat.mod_eq_of_lt hj,
        List.getElem?_eq_getElem hj, htokq]

/-- C1 witness: shuffling the Alice/Bob system with a concrete draw stream
produces the 2-cycle with all the claimed properties. -/
theorem shuffle_single_cycle_witness :
    (shuffleHandler true (fun _ => 0) "2024-12-05T00:00:00.000Z" stAB).1 = .shuffled
    ∧ (∀ p ∈ (postShuffle (fun _ => 0) "2024-12-05T00:00:00.000Z" stAB).participants,
        ∃ t, p.assignmentToken = some t ∧ t ≠ p.token)
    ∧ (∀ p ∈ (postShuffle (fun _ => 0) "2024-12-05T00:00:00.000Z" stAB).participants,
        iterNext (postShuffle (fun _ => 0) "2024-12-05T00:00:00.000Z" stAB)
          stAB.reg.participants.length p.token = some p.token) := by
  have h := shuffle_single_cycle (fun _ => 0) "2024-12-05T00:00:00.000Z" stAB
    (by decide) (by decide)
  exact ⟨h.1, h.2.2.2.2.2.1, h.2.2.2.2.2.2.1⟩

/-! ### Load-validation policy (C7) -/

/-- A persisted file whose only participant record carries `token: null`
(so the record has no non-empty token). -/
def nullTokenFile : Json :=
  .obj [("participants", .arr [.obj [("token", Json.null), ("name", .str "A")]]),
        ("assignmentsReady", .bool false),
        ("lastShuffledAt", Json.null),
        ("registrationOpen", .bool true)]

/-- C7 counterexample: the claim requires a record lacking a non-empty
token to be dropped, but loading `nullTokenFile` — whose only record has
`token: null`, not a non-empty token — retains the record, because JS
`String(null)` is the non-empty string "null": the loaded state has one
participant with token `"null"` instead of none. -/
theorem load_null_token_retained :
    loadSanitize "2024-12-06T00:00:00.000Z" nullTokenFile =
      .ok { participants :=
              [{ token := "null", name := "A", assignmentToken := none
                 registeredAt := "2024-12-06T00:00:00.000Z", ipAddress := none }]
            assignmentsReady := false
            lastShuffledAt := none
            registrationOpen := true } := by
  rfl

/-- C7 (amended): for every parseable persisted file, load validates each
participant record independently: a record that is not an object, or whose
`token` or `name` property is absent or JS-stringifies to the empty string,
is dropped silently, and every other record is retained (load never fails on
record content); a retained record keeps a non-empty string `registeredAt`
and defaults it to the current time whenever it is absent, not a string, or
the empty string; it keeps a non-empty string `assignmentToken` and defaults
it to `null` whenever that is absent, not a string, or the empty string; a
missing `ipAddress` defaults to `null`; and each missing flag independently
defaults to `assignmentsReady = false`, `lastShuffledAt = null`,
`registrationOpen = true`. -/
theorem load_record_policy (now : String) :
    (∀ j : Json, (∀ fields, j ≠ .obj fields) → sanitizeRecord now j = none)
    ∧ (∀ fields, fieldString fields "token" = "" ∨ fieldString fields "name" = "" →
        sanitizeRecord now (.obj fields) = none)
    ∧ (∀ fields, fieldString fields "token" ≠ "" → fieldString fields "name" ≠ "" →
        ∃ e : PersistedParticipant,
          sanitizeRecord now (.obj fields) = some e
          ∧ e.token = fieldString fields "token"
          ∧ e.name = fieldString fields "name"
          ∧ (lookupField fields "registeredAt" = none → e.registeredAt = now)
          ∧ (∀ v, lookupField fields "registeredAt" = some v →
              (∀ s : String, v = .str s → s = "") → e.registeredAt = now)
          ∧ (∀ s, lookupField fields "registeredAt" = some (.str s) → s ≠ "" →
              e.registeredAt = s)
          ∧ (lookupField fields "assignmentToken" = none → e.assignmentToken = none)
          ∧ (∀ v, lookupField fields "assignmentToken" = some v →
              (∀ s : String, v = .str s → s = "") → e.assignmentToken = none)
          ∧ (∀ s, lookupField fields "assignmentToken" = some (.str s) → s ≠ "" →
              e.assignmentToken = some s)
          ∧ (lookupField fields "ipAddress" = none → e.ipAddress = none))
    ∧ (∀ fields raw, lookupField fields "participants" = some (.arr raw) →
        ∃ ps : PersistedState, loadSanitize now (.obj fields) = .ok ps
          ∧ ps.participants = raw.filterMap (sanitizeRecord now)
          ∧ (lookupField fields "assignmentsReady" = none →
              ps.assignmentsReady = false)
          ∧ (lookupField fields "lastShuffledAt" = none →
              ps.lastShuffledAt = none)
          ∧ (lookupField fields "registrationOpen" = none →
              ps.registrationOpen = true)) := by
  refine ⟨?_, ?_, ?_, ?_⟩
  · intro j hj
    cases j with
    | obj fields => exact absurd rfl (hj fields)
    | null => rfl
    | bool b => rfl
    | num n => rfl
    | str s => rfl
    | arr xs => rfl
  · intro fields h
    have hcond : (fieldString fields "token" = "" || fieldString fields "name" = "")
        = true := by
      rcases h with h | h <;> simp [h]
    simp [sanitizeRecord, hcond]
  · intro fields htok hnm
    refine ⟨{ token := fieldString fields "token", name := fieldString fields "name"
              registeredAt := match lookupField fields "registeredAt" with
                | some (.str s) => if s = "" then now else s
                | _ => now
              assignmentToken := match lookupField fields "assignmentToken" with
                | some (.str s) => if s = "" then none else some s
                | _ => none
              ipAddress := match lookupField fields "ipAddress" with
                | some (.str s) => if jsTrim s = "" then none else some ((jsTrim s).take 128)
                | _ => none }, ?_, rfl, rfl, ?_, ?_, ?_, ?_, ?_, ?_, ?_⟩
    · simp [sanitizeRecord, htok, hnm]
    · intro h
      simp [h]
    · intro v h hvs
      cases v with
      | str s =>
        have hs : s = "" := hvs s rfl
        simp [h, hs]
      | null => simp [h]
      | bool b => simp [h]
      | num n => simp [h]
      | arr xs => simp [h]
      | obj g => simp [h]
    · intro s h hs
      simp [h, hs]
    · intro h
      simp [h]
    · intro v h hvs
      cases v with
      | str s =>
        have hs : s = "" := hvs s rfl
        simp [h, hs]
      | null => simp [h]
      | bool b => simp [h]
      | num n => simp [h]
      | arr xs => simp [h]
      | obj g => simp [h]
    · intro s h hs
      simp [h, hs]
    · intro h
      simp [h]
  · intro fields raw h
    refine ⟨{ participants := raw.filterMap (sanitizeRecord now)
              assignmentsReady := jsTruthyOpt (lookupField fields "assignmentsReady")
              lastShuffledAt := match lookupField fields "lastShuffledAt" with
                | some (.str s) => if s = "" then none else some s
                | _ => none
              registrationOpen := match lookupField fields "registrationOpen" with
                | some (.bool b) => b
                | _ => true }, ?_, rfl, ?_, ?_, ?_⟩
    · simp [loadSanitize, h]
    · intro h1
      simp [h1, jsTruthyOpt]
    · intro h2
      simp [h2]
    · intro h3
      simp [h3]

/-- C7 (amended) witness: a record with only a name (token property absent)
is dropped by the sanitizer. -/
theorem load_record_policy_witness :
    sanitizeRecord "2024-12-06T00:00:00.000Z" (.obj [("name", Json.str "A")]) = none :=
  (load_record_policy "2024-12-06T00:00:00.000Z").2.1 [("name", Json.str "A")]
    (Or.inl (by decide))

end SantaSpec

